import Mathlib

/-!
Verification development for the `fustg_rs` repository.

Shallow embedding of the parts of the source the claims are about:

* `src/operator/rolling.rs` — ring container and rolling `Sum`, `Mean`, `StDev`
  operators (section `Rolling` below);
* `src/perf_tracker.rs` — per-strategy position / margin / cash accounting
  (section `Perf` below);
* `src/main.rs` `SymbolType::hash_future_symbol` — the shard-key function
  (section `Shard` below).

Modelling conventions:

* An IEEE `f64` is modelled as `Option ℚ`: `some q` is a finite value of exact
  magnitude `q`, `none` is a non-finite value (NaN or ±∞).  The source only
  ever distinguishes finite from non-finite (via `is_finite`), never NaN from
  ±∞, so the two are conflated.  Arithmetic on finite values is exact rational
  arithmetic (no rounding, no overflow to ±∞); `x / 0` and `sqrt` of a
  negative are non-finite, as in IEEE.
* Rust `u32` / `usize` values are `Nat`.  Where the source performs machine
  subtraction or addition whose wrap-around matters, the reduction is taken
  modulo `2^32` explicitly (`add32` / `sub32`); a debug build of the source
  would panic at the same spot instead of wrapping.
-/

namespace Fustg

/-- Finite-or-not model of an `f64`: `some q` is the finite value `q`, `none`
is non-finite (NaN or ±∞; the source never distinguishes the two). -/
abbrev F64 := Option ℚ

/-- Contribution of an `f64` slot to a sum of its finite members: finite
values count themselves, non-finite values count 0. -/
def contrib (v : F64) : ℚ := v.getD 0

/-- Multiplication of two `f64` values: finite · finite is exact, anything
involving a non-finite operand is non-finite. -/
def fmul (a b : F64) : F64 :=
  match a, b with
  | some x, some y => some (x * y)
  | _, _ => none

/-- Subtraction of two `f64` values, with non-finite propagation. -/
def fsub (a b : F64) : F64 :=
  match a, b with
  | some x, some y => some (x - y)
  | _, _ => none

/-- Division of two finite `f64` values: division by zero is non-finite
(`0/0` is NaN, `x/0` is ±∞ — both non-finite). -/
def fdivq (a b : ℚ) : F64 :=
  if b = 0 then none else some (a / b)

/-- Division of two `f64` values, with non-finite propagation and
division-by-zero mapped to non-finite. -/
def fdiv (a b : F64) : F64 :=
  match a, b with
  | some x, some y => fdivq x y
  | _, _ => none

/-- Square root of an `f64`: `f64::sqrt` of a negative value is NaN, and of a
non-finite value is non-finite.  On nonnegative rationals `Rat.sqrt` is used;
it agrees with the exact square root at perfect squares (the theorems below
only ever evaluate it at `0` or at negative radicands). -/
def fsqrt (a : F64) : F64 :=
  match a with
  | some x => if x < 0 then none else some (Rat.sqrt x)
  | none => none

namespace Rolling

/-- Ring container of `src/operator/rolling.rs` lines 22–78: a fixed vector of
`f64` initialized to NaN, plus head and tail indices.  Only the operations the
rolling operators use (`new`, `update`, `head`, `len`) are embedded; `get`,
`tail`, `step` and `iter` are not used by `Sum`, `Mean` or `StDev`. -/
structure Container where
  buf : List F64
  head_idx : Nat
  tail_idx : Nat
  deriving DecidableEq, Repr

/-- Container::new — a buffer of `n` NaN slots, both indices 0. -/
def Container.new (n : Nat) : Container :=
  ⟨List.replicate n none, 0, 0⟩

/-- Container::head — `buf[head_idx]`.  Rust indexing panics out of bounds;
every caller keeps `head_idx < buf.length` (capacity `n > 0`), so the `getD`
default is never taken on those calls. -/
def Container.head (c : Container) : F64 :=
  c.buf.getD c.head_idx none

/-- Container::len. -/
def Container.len (c : Container) : Nat :=
  c.buf.length

/-- Container::update — write the new value at the current head (which becomes
the tail), advance head modulo the capacity, and return the pair
`(buf[head], buf[tail])` read after the write. -/
def Container.update (c : Container) (new_val : F64) : Container × F64 × F64 :=
  let tail_idx := c.head_idx
  let buf := c.buf.set tail_idx new_val
  let head_idx := (tail_idx + 1) % buf.length
  (⟨buf, head_idx, tail_idx⟩, buf.getD head_idx none, buf.getD tail_idx none)

/-- Shared body of Sum::update and Mean::update (rolling.rs lines 95–110 and
156–170 are textually identical): read the about-to-evict value, write the new
value, and maintain the running finite sum and the non-finite count.  The
`usize` decrement `nan_count -= 1` is `Nat` subtraction here; it only fires
when the evicted value is non-finite, in which case the count is positive. -/
def rollCore (c : Container) (nan_count : Nat) (sum : ℚ) (new_val : F64) :
    Container × Nat × ℚ :=
  let old_val := c.head
  let c := (c.update new_val).1
  let s₁ : Nat × ℚ :=
    match old_val with
    | some q => (nan_count, sum - q)
    | none => (nan_count - 1, sum)
  let s₂ : Nat × ℚ :=
    match new_val with
    | some q => (s₁.1, s₁.2 + q)
    | none => (s₁.1 + 1, s₁.2)
  (c, s₂)

/-- Rolling sum state (rolling.rs lines 80–84).  The `sum` field is an `f64`
in the source but only ever accumulates finite values, so it is embedded as a
rational. -/
structure Sum where
  container : Container
  nan_count : Nat
  sum : ℚ
  deriving DecidableEq, Repr

/-- Sum::new — empty window: `n` NaN slots, non-finite count `n`, sum 0. -/
def Sum.new (n : Nat) : Sum :=
  ⟨Container.new n, n, 0⟩

/-- Sum::update — roll the window, then return the running sum if the window
holds no non-finite sample, NaN otherwise. -/
def Sum.update (s : Sum) (new_val : F64) : Sum × F64 :=
  let r := rollCore s.container s.nan_count s.sum new_val
  (⟨r.1, r.2.1, r.2.2⟩, if r.2.1 > 0 then none else some r.2.2)

/-- Rolling mean state (rolling.rs lines 141–145); fields as in `Sum`. -/
structure Mean where
  container : Container
  nan_count : Nat
  sum : ℚ
  deriving DecidableEq, Repr

/-- Mean::new. -/
def Mean.new (n : Nat) : Mean :=
  ⟨Container.new n, n, 0⟩

/-- Mean::update — roll the window, then divide the running sum by the number
of finite samples (`len - nan_count`, a `usize` difference) when some sample
is non-finite, by the full capacity otherwise. -/
def Mean.update (m : Mean) (new_val : F64) : Mean × F64 :=
  let r := rollCore m.container m.nan_count m.sum new_val
  (⟨r.1, r.2.1, r.2.2⟩,
    if r.2.1 > 0 then fdivq r.2.2 ((r.1.len - r.2.1 : Nat))
    else fdivq r.2.2 (r.1.len))

/-- Rolling standard deviation state (rolling.rs lines 180–184): a rolling sum
of the samples, a rolling sum of their squares, and the capacity `n`. -/
structure StDev where
  sumer : Sum
  sq_sumer : Sum
  n : Nat
  deriving DecidableEq, Repr

/-- StDev::new. -/
def StDev.new (n : Nat) : StDev :=
  ⟨Sum.new n, Sum.new n, n⟩

/-- StDev::update — feed `x` and `x·x` to the two sums, form the sample
variance `(Σx² − (Σx)²/n) / (n − 1)` in `f64` arithmetic, and take its square
root.  There is no clamp of a negative variance in the source: the square
root is applied directly to whatever the variance expression produced. -/
def StDev.update (s : StDev) (new_val : F64) : StDev × F64 :=
  let r₁ := s.sumer.update new_val
  let r₂ := s.sq_sumer.update (fmul new_val new_val)
  let variance :=
    fdiv (fsub r₂.2 (fdiv (fmul r₁.2 r₁.2) (some (s.n : ℚ))))
      (fsub (some (s.n : ℚ)) (some 1))
  (⟨r₁.1, r₂.1, s.n⟩, fsqrt variance)

/-- Iterate Sum::update `k` times on the same input value, keeping the state. -/
def Sum.updateN (s : Sum) (v : F64) : Nat → Sum
  | 0 => s
  | k + 1 => ((s.updateN v k).update v).1

/-- Iterate Mean::update `k` times on the same input value, keeping the state. -/
def Mean.updateN (m : Mean) (v : F64) : Nat → Mean
  | 0 => m
  | k + 1 => ((m.updateN v k).update v).1

/-- Iterate StDev::update `k` times on the same input value, keeping the state. -/
def StDev.updateN (s : StDev) (v : F64) : Nat → StDev
  | 0 => s
  | k + 1 => ((s.updateN v k).update v).1

/-- Feed a list of inputs through Mean::update, keeping the state. -/
def Mean.feed (m : Mean) (xs : List F64) : Mean :=
  xs.foldl (fun m v => (m.update v).1) m

/-- Sum of the finite samples held in a window. -/
def finSum (l : List F64) : ℚ :=
  (l.map contrib).sum

/-- Number of non-finite samples held in a window. -/
def countNone (l : List F64) : Nat :=
  l.countP (fun v => v.isNone)

end Rolling

namespace Perf

/-- Direction enum of `src/types.rs` lines 103–109 (`NONE = 0, BUY = 1,
SELL = 2`). -/
inductive DirectionType where
  | NONE
  | BUY
  | SELL
  deriving DecidableEq, Repr

/-- Offset enum of `src/types.rs` lines 112–118 (`NONE = 0, OPEN = 1,
CLOSE = 2`). -/
inductive OffsetFlagType where
  | NONE
  | OPEN
  | CLOSE
  deriving DecidableEq, Repr

/-- Contract fee/margin parameters (`src/config.rs` `ContractInfo`).  The
source field `contract_multiplier` is accessed as `multiplier` in
`perf_tracker.rs`; the `perf_tracker.rs` spelling is kept.  All values are
finite doubles, embedded as rationals. -/
structure ContractInfo where
  multiplier : ℚ
  min_move : ℚ
  open_fee_rate : ℚ
  open_fee_fixed : ℚ
  close_fee_rate : ℚ
  close_fee_fixed : ℚ
  close_today_fee_rate : ℚ
  close_today_fee_fixed : ℚ
  long_margin_rate : ℚ
  long_margin_fixed : ℚ
  short_margin_rate : ℚ
  short_margin_fixed : ℚ
  deriving DecidableEq, Repr

/-- Order record as consumed by `perf_tracker.rs` (the variant constructed in
`src/strategies/aberration.rs`, which carries `price` and `lots`; the
`types.rs` variant names the quantity `volume`).  The two fixed-width string
fields `stg_name` and `symbol` are inert payload for every claim about the
tracker and are omitted. -/
structure Order where
  timestamp : Int
  price : ℚ
  lots : Nat
  direction : DirectionType
  offset : OffsetFlagType
  deriving DecidableEq, Repr

/-- Tick record restricted to the fields the performance tracker reads
(`ap1`, `bp1`) plus `last` (the reference price named by the spec); the many
remaining fields of `TickData` are never read by the tracker. -/
structure TickData where
  last : ℚ
  ap1 : ℚ
  bp1 : ℚ
  deriving DecidableEq, Repr

/-- Wrapping `u32` addition (`a + b` on `u32` wraps modulo `2^32` in a
release build; a debug build panics on overflow). -/
def add32 (a b : Nat) : Nat :=
  (a + b) % 2 ^ 32

/-- Wrapping `u32` subtraction for `a, b < 2^32` (`a - b` on `u32` wraps
modulo `2^32` in a release build; a debug build panics on underflow). -/
def sub32 (a b : Nat) : Nat :=
  (a + 2 ^ 32 - b) % 2 ^ 32

/-- Single-direction position of `perf_tracker.rs` lines 8–14: open lots,
weighted-average entry price, reserved margin. -/
structure Position where
  lots : Nat
  avg_price : ℚ
  margin : ℚ
  deriving DecidableEq, Repr

/-- Position::new (perf_tracker.rs lines 17–25). -/
def Position.new (lots : Nat) (price margin_rate margin_fixed multiplier : ℚ) :
    Position :=
  let value := price * multiplier * (lots : ℚ)
  let margin := margin_rate * value + margin_fixed * (lots : ℚ)
  ⟨lots, price, margin⟩

/-- Position::reduce (perf_tracker.rs lines 28–34): subtract the closed lots
(no `min` is taken — the `u32` subtraction `self.lots -= lots_closed` wraps in
a release build and panics in a debug build when `lots_closed > lots`),
recompute the remaining margin at the average entry price, and return the
margin computed for the closed lots at the closing price. -/
def Position.reduce (p : Position) (lots_closed : Nat)
    (close_price margin_rate margin_fixed multiplier : ℚ) : Position × ℚ :=
  let closed_value := close_price * multiplier * (lots_closed : ℚ)
  let release_margin := margin_rate * closed_value + margin_fixed * (lots_closed : ℚ)
  let lots := sub32 p.lots lots_closed
  let margin := margin_rate * (p.avg_price * multiplier * (lots : ℚ)) +
    margin_fixed * (lots : ℚ)
  (⟨lots, p.avg_price, margin⟩, release_margin)

/-- Position::unrealized_pnl (perf_tracker.rs lines 37–43).  The source match
on the direction has arms for `BUY` and `SELL` only; there is no `NONE` arm,
so the result is `none` for `NONE` (in Rust the non-exhaustive match is a
compile error). -/
def Position.unrealized_pnl (p : Position) (last_price multiplier : ℚ) :
    DirectionType → Option ℚ
  | .BUY => some ((last_price - p.avg_price) * multiplier * (p.lots : ℚ))
  | .SELL => some ((p.avg_price - last_price) * multiplier * (p.lots : ℚ))
  | .NONE => none

/-- Performance tracker state (perf_tracker.rs lines 46–58).  The
`HashMap<DirectionType, Position>` is represented by its `BUY` and `SELL`
entries (`posBuy`, `posSell`): the only insertions are
`positions.entry(order.direction)` under match arms whose direction is `BUY`
or `SELL`, so a `NONE` key can never appear. -/
structure PerformanceTracker where
  init_cash : ℚ
  available_cash : ℚ
  posBuy : Option Position
  posSell : Option Position
  contract_info : ContractInfo
  frozen_cash : ℚ
  market_value : ℚ
  total_fee : ℚ
  orders : List Order
  deriving DecidableEq, Repr

/-- Lookup in the direction-keyed position map (`positions.get`). -/
def PerformanceTracker.getPos (t : PerformanceTracker) :
    DirectionType → Option Position
  | .BUY => t.posBuy
  | .SELL => t.posSell
  | .NONE => none

/-- Store into the direction-keyed position map (`insert` for `some`,
`remove` for `none`).  Unreachable for `NONE` (no match arm of `on_fill`
passes it). -/
def PerformanceTracker.setPos (t : PerformanceTracker) (d : DirectionType)
    (p : Option Position) : PerformanceTracker :=
  match d with
  | .BUY => { t with posBuy := p }
  | .SELL => { t with posSell := p }
  | .NONE => t

/-- PerformanceTracker::new (perf_tracker.rs lines 61–73). -/
def PerformanceTracker.new (init_cash : ℚ) (contract_info : ContractInfo) :
    PerformanceTracker :=
  ⟨init_cash, init_cash, none, none, contract_info, 0, init_cash, 0, []⟩

/-- OPEN leg of `on_fill` (perf_tracker.rs lines 84–133) for direction `d`
at fill price `price`: charge the open fee, create the position at 0 lots if
absent, fold the fill into the weighted-average price and lot count,
recompute the margin from the new average, and subtract
`pos.margin - self.frozen_cash` (the comment in the source calls this the
incremental freeze) from available cash. -/
def PerformanceTracker.openLeg (t : PerformanceTracker) (order : Order)
    (d : DirectionType) (price : ℚ) : PerformanceTracker :=
  let multiplier := t.contract_info.multiplier
  let lots := order.lots
  let value := price * multiplier * (lots : ℚ)
  let fee := t.contract_info.open_fee_rate * value +
    t.contract_info.open_fee_fixed * (lots : ℚ)
  let t := { t with total_fee := t.total_fee + fee,
                    available_cash := t.available_cash - fee }
  let margin_rate := if d = .BUY then t.contract_info.long_margin_rate
    else t.contract_info.short_margin_rate
  let margin_fixed := if d = .BUY then t.contract_info.long_margin_fixed
    else t.contract_info.short_margin_fixed
  let pos := (t.getPos d).getD (Position.new 0 price margin_rate margin_fixed multiplier)
  let total_lots := add32 pos.lots lots
  let new_avg := (pos.avg_price * (pos.lots : ℚ) + price * (lots : ℚ)) / (total_lots : ℚ)
  let pos := { pos with avg_price := new_avg, lots := add32 pos.lots lots }
  let pos := { pos with margin :=
    margin_rate * (new_avg * multiplier * (pos.lots : ℚ)) + margin_fixed * (pos.lots : ℚ) }
  let t := t.setPos d (some pos)
  { t with available_cash := t.available_cash - (pos.margin - t.frozen_cash) }

/-- CLOSE leg of `on_fill` (perf_tracker.rs lines 84–92 and 134–153) for
direction `d` at fill price `price`: charge the close fee; if a position in
that direction exists, reduce it by the order's lots, add the returned margin
to available cash, and remove the entry when its lot count reaches 0. -/
def PerformanceTracker.closeLeg (t : PerformanceTracker) (order : Order)
    (d : DirectionType) (price : ℚ) : PerformanceTracker :=
  let multiplier := t.contract_info.multiplier
  let lots := order.lots
  let value := price * multiplier * (lots : ℚ)
  let fee := t.contract_info.close_fee_rate * value +
    t.contract_info.close_fee_fixed * (lots : ℚ)
  let t := { t with total_fee := t.total_fee + fee,
                    available_cash := t.available_cash - fee }
  match t.getPos d with
  | none => t
  | some pos =>
    let margin_rate := if d = .BUY then t.contract_info.long_margin_rate
      else t.contract_info.short_margin_rate
    let margin_fixed := if d = .BUY then t.contract_info.long_margin_fixed
      else t.contract_info.short_margin_fixed
    let r := pos.reduce lots price margin_rate margin_fixed multiplier
    let t := { t with available_cash := t.available_cash + r.2 }
    let t := t.setPos d (some r.1)
    if r.1.lots = 0 then t.setPos d none else t

/-- PerformanceTracker::on_fill (perf_tracker.rs lines 75–157).  The source
opens with a match over `(order.direction, order.offset)` whose arms are
exactly `BUY/SELL × OPEN/CLOSE` — there is no arm for either `NONE` variant
(in Rust that match is non-exhaustive and rejected at compile time), so the
result is `none` for those orders.  A `BUY` fills at `tick.ap1` and a `SELL`
at `tick.bp1`; afterwards the order is appended to the history. -/
def PerformanceTracker.on_fill (t : PerformanceTracker) (order : Order)
    (tick : TickData) : Option PerformanceTracker :=
  (match order.direction, order.offset with
    | .BUY, .OPEN => some (t.openLeg order .BUY tick.ap1)
    | .SELL, .OPEN => some (t.openLeg order .SELL tick.bp1)
    | .BUY, .CLOSE => some (t.closeLeg order .BUY tick.ap1)
    | .SELL, .CLOSE => some (t.closeLeg order .SELL tick.bp1)
    | _, _ => none).map
    (fun u : PerformanceTracker => { u with orders := u.orders ++ [order] })

/-- PerformanceTracker::on_tick_end (perf_tracker.rs lines 160–172): sum each
open position's unrealized P&L — marking the `BUY` entry against `tick.ap1`
and the `SELL` entry against `tick.bp1` — and its reserved margin, store the
margin total in `frozen_cash`, and store
`available_cash + total_unreal + total_margin` in `market_value`.  The `getD`
defaults are never taken: the direction literals are `BUY`/`SELL`, for which
`unrealized_pnl` is `some`. -/
def PerformanceTracker.on_tick_end (t : PerformanceTracker) (tick : TickData) :
    PerformanceTracker :=
  let multiplier := t.contract_info.multiplier
  let total_unreal :=
    (match t.posBuy with
      | some p => (p.unrealized_pnl tick.ap1 multiplier .BUY).getD 0
      | none => 0) +
    (match t.posSell with
      | some p => (p.unrealized_pnl tick.bp1 multiplier .SELL).getD 0
      | none => 0)
  let total_margin :=
    (match t.posBuy with | some p => p.margin | none => 0) +
    (match t.posSell with | some p => p.margin | none => 0)
  { t with frozen_cash := total_margin,
           market_value := t.available_cash + total_unreal + total_margin }

/-- Total reserved margin over the open positions of a tracker. -/
def PerformanceTracker.totalMargin (t : PerformanceTracker) : ℚ :=
  (match t.posBuy with | some p => p.margin | none => 0) +
  (match t.posSell with | some p => p.margin | none => 0)

/-- Total unrealized P&L of a tracker against a tick, long positions marked
at the best ask `ap1` and short positions at the best bid `bp1`. -/
def PerformanceTracker.totalUnreal (t : PerformanceTracker) (tick : TickData) : ℚ :=
  (match t.posBuy with
    | some p => (tick.ap1 - p.avg_price) * t.contract_info.multiplier * (p.lots : ℚ)
    | none => 0) +
  (match t.posSell with
    | some p => (p.avg_price - tick.bp1) * t.contract_info.multiplier * (p.lots : ℚ)
    | none => 0)

end Perf

namespace Shard

/-- A 16-byte, C-style symbol (`SymbolType(pub [u8; 16])`). -/
structure SymbolType where
  bytes : Fin 16 → Fin 256

/-- Build a symbol from a list of byte values, NUL-padded to 16 bytes as in
`SymbolType::from(&str)`. -/
def byteOf (n : Nat) : Fin 256 :=
  ⟨n % 256, by omega⟩

/-- Build a symbol from at most 16 byte values, padding with zeros. -/
def mkSymbol (l : List Nat) : SymbolType :=
  ⟨fun i => byteOf (l.getD i.val 0)⟩

/-- SymbolType::hash_future_symbol (src/main.rs lines 309–322): 0 when byte 0
is not an ASCII letter (`A`–`Z` is 65–90, `a`–`z` is 97–122); otherwise
`(byte0 << 8) | byte1` when byte 1 is also a letter, else `byte0 << 8`.  The
`u16` arithmetic cannot wrap: `byte0 ≤ 122` so `byte0 << 8 ≤ 31232 < 2^16`. -/
def SymbolType.hash_future_symbol (s : SymbolType) : Nat :=
  let c0 := (s.bytes 0).val
  if !((65 ≤ c0 && c0 ≤ 90) || (97 ≤ c0 && c0 ≤ 122)) then 0
  else
    let c1 := (s.bytes 1).val
    if (65 ≤ c1 && c1 ≤ 90) || (97 ≤ c1 && c1 ≤ 122) then (c0 <<< 8) ||| c1
    else c0 <<< 8

/-- Decidable test for an ASCII letter byte, as written in the source guards. -/
def isAsciiLetter (c : Nat) : Bool :=
  (65 ≤ c && c ≤ 90) || (97 ≤ c && c ≤ 122)

/-- Byte values of the NUL-padded symbol string rb2505. -/
def symRb2505 : SymbolType :=
  mkSymbol [0x72, 0x62, 0x32, 0x35, 0x30, 0x35]

/-- Byte values of the NUL-padded symbol string MA505. -/
def symMA505 : SymbolType :=
  mkSymbol [0x4D, 0x41, 0x35, 0x30, 0x35]

/-- Byte values of the NUL-padded symbol string 9abc. -/
def sym9abc : SymbolType :=
  mkSymbol [0x39, 0x61, 0x62, 0x63]

/-- Byte values of the NUL-padded symbol string X1. -/
def symX1 : SymbolType :=
  mkSymbol [0x58, 0x31]

end Shard

/-! Concrete fixtures used by counterexamples and witnesses. -/

namespace Fix

open Perf Rolling

/-- Contract with multiplier 1 and every fee and margin parameter 0. -/
def ciZero : ContractInfo :=
  ⟨1, 0, 0, 0, 0, 0, 0, 0, 0, 0, 0, 0⟩

/-- Contract with multiplier 1, long and short margin rates 1, no fixed
margin and no fees. -/
def ciMargin1 : ContractInfo :=
  ⟨1, 0, 0, 0, 0, 0, 0, 0, 1, 0, 1, 0⟩

/-- An order opening 1 lot long. -/
def oOpenBuy1 : Order :=
  ⟨0, 10, 1, .BUY, .OPEN⟩

/-- An order closing 1 lot of the long position. -/
def oCloseBuy1 : Order :=
  ⟨0, 14, 1, .BUY, .CLOSE⟩

/-- An order closing 2 lots of the long position. -/
def oCloseBuy2 : Order :=
  ⟨0, 10, 2, .BUY, .CLOSE⟩

/-- An order whose direction is the `NONE` variant. -/
def oNoneDir : Order :=
  ⟨0, 10, 1, .NONE, .OPEN⟩

/-- A tick quoting 10 at the touch. -/
def tick10 : TickData :=
  ⟨10, 10, 10⟩

/-- A tick quoting 14 at the touch. -/
def tick14 : TickData :=
  ⟨14, 14, 14⟩

/-- A tick whose last trade (12) differs from its best ask (20). -/
def tickMix : TickData :=
  ⟨12, 20, 12⟩

/-- A tracker holding one long lot at average price 10 under `ciMargin1`
(the state reached by opening 1 lot at 10 from 100 cash). -/
def tLong1 : PerformanceTracker :=
  ⟨100, 90, some ⟨1, 10, 10⟩, none, ciMargin1, 0, 100, 0, []⟩

/-- A standard-deviation state of capacity 2 whose window holds two finite
samples of value 1 but whose cached sum of squares has drifted to 0 while the
cached sum reads 2 — the cancellation scenario §4.1 of the spec describes. -/
def stBad : StDev :=
  ⟨⟨⟨[some 1, some 1], 0, 0⟩, 0, 2⟩, ⟨⟨[some 1, some 1], 0, 0⟩, 0, 0⟩, 2⟩

/-- A consistent standard-deviation state of capacity 2: window `[1, 1]`,
cached sum 2 and cached sum of squares 2. -/
def stOK : StDev :=
  ⟨⟨⟨[some 1, some 1], 0, 0⟩, 0, 2⟩, ⟨⟨[some 1, some 1], 0, 0⟩, 0, 2⟩, 2⟩

end Fix

namespace Rolling

/-- Iterate the shared roll body `k` times on the same input value. -/
def rollIterN (st : Container × Nat × ℚ) (v : F64) : Nat → Container × Nat × ℚ
  | 0 => st
  | k + 1 =>
    let p := rollIterN st v k
    rollCore p.1 p.2.1 p.2.2 v

/-- State invariant tying the cached fields of a rolling operator of capacity
`N` to its window: the buffer has length `N`, the head index is in range, the
cached non-finite count is the number of non-finite samples in the window,
and the cached sum is the sum of its finite samples. -/
def rollInv (N : Nat) (st : Container × Nat × ℚ) : Prop :=
  st.1.buf.length = N ∧ st.1.head_idx < N ∧
    st.2.1 = countNone st.1.buf ∧ st.2.2 = finSum st.1.buf

end Rolling

/-! Theorems. -/

open Rolling Perf Shard Fix

/-- C9: the shard key returns 0 when byte 0 is not an ASCII letter,
`(byte0 << 8) | byte1` when bytes 0 and 1 are both ASCII letters, and
`byte0 << 8` when only byte 0 is; it maps rb2505 to 29282, MA505 to 19777,
9abc to 0 and X1 to 22528. -/
theorem c9_shard_key :
    (∀ s : SymbolType, isAsciiLetter (s.bytes 0).val = false →
      s.hash_future_symbol = 0) ∧
    (∀ s : SymbolType, isAsciiLetter (s.bytes 0).val = true →
      isAsciiLetter (s.bytes 1).val = true →
      s.hash_future_symbol = (((s.bytes 0).val <<< 8) ||| (s.bytes 1).val)) ∧
    (∀ s : SymbolType, isAsciiLetter (s.bytes 0).val = true →
      isAsciiLetter (s.bytes 1).val = false →
      s.hash_future_symbol = ((s.bytes 0).val <<< 8)) ∧
    symRb2505.hash_future_symbol = 29282 ∧
    symMA505.hash_future_symbol = 19777 ∧
    sym9abc.hash_future_symbol = 0 ∧
    symX1.hash_future_symbol = 22528 := by
  refine ⟨?_, ?_, ?_, by decide, by decide, by decide, by decide⟩
  · intro s h
    simp only [isAsciiLetter] at h
    simp [SymbolType.hash_future_symbol, h]
  · intro s h0 h1
    simp only [isAsciiLetter] at h0 h1
    simp [SymbolType.hash_future_symbol, h0, h1]
  · intro s h0 h1
    simp only [isAsciiLetter] at h0 h1
    simp [SymbolType.hash_future_symbol, h0, h1]

/-- Witness for C9: the three shape clauses applied at concrete symbols. -/
theorem c9_shard_key_witness :
    sym9abc.hash_future_symbol = 0 ∧
    symRb2505.hash_future_symbol =
      (((symRb2505.bytes 0).val <<< 8) ||| (symRb2505.bytes 1).val) ∧
    symX1.hash_future_symbol = ((symX1.bytes 0).val <<< 8) :=
  ⟨c9_shard_key.1 sym9abc (by decide),
   c9_shard_key.2.1 symRb2505 (by decide) (by decide),
   c9_shard_key.2.2.1 symX1 (by decide) (by decide)⟩

/-- C10: `on_tick_end` changes only the frozen-margin total and the recorded
equity value; available cash, init cash, both position slots, the contract
parameters, the fee total and the order history are unchanged, and the frozen
total becomes the sum of the reserved margins of the open positions. -/
theorem c10_on_tick_end_frame :
    ∀ (t : PerformanceTracker) (tick : TickData),
      (t.on_tick_end tick).available_cash = t.available_cash ∧
      (t.on_tick_end tick).init_cash = t.init_cash ∧
      (t.on_tick_end tick).posBuy = t.posBuy ∧
      (t.on_tick_end tick).posSell = t.posSell ∧
      (t.on_tick_end tick).contract_info = t.contract_info ∧
      (t.on_tick_end tick).total_fee = t.total_fee ∧
      (t.on_tick_end tick).orders = t.orders ∧
      (t.on_tick_end tick).frozen_cash = t.totalMargin :=
  fun _ _ => ⟨rfl, rfl, rfl, rfl, rfl, rfl, rfl, rfl⟩

/-- C5 (code evaluated at the failing input): an order whose direction or
offset is the `NONE` variant hits no arm of the `on_fill` match — the source
match over `(direction, offset)` covers only `BUY/SELL × OPEN/CLOSE`, and in
Rust it is non-exhaustive and rejected at compile time — so such an order is
not a state-preserving no-op. -/
theorem c5_none_orders_have_no_arm :
    ∀ (t : PerformanceTracker) (order : Order) (tick : TickData),
      order.direction = .NONE ∨ order.offset = .NONE →
      t.on_fill order tick = none := by
  intro t order tick h
  obtain ⟨ts, pr, lots, d, o⟩ := order
  cases d <;> cases o <;> simp_all [PerformanceTracker.on_fill]

/-- Witness for C5: a fresh tracker fed a `NONE`-direction order. -/
theorem c5_witness :
    (PerformanceTracker.new 100 ciZero).on_fill oNoneDir tick10 = none :=
  c5_none_orders_have_no_arm _ _ _ (Or.inl rfl)

/-- C2 (code evaluated at the failing input): two consecutive 1-lot long
opens at price 10 under margin rate 1, multiplier 1, no fees, from 1000 cash
and with no `on_tick_end` in between.  The code subtracts
`pos.margin - frozen_cash` with `frozen_cash` still 0, so the second fill
subtracts the whole new margin 20 and cash ends at 970; subtracting the
incremental reservation `new_margin - pre_margin = 20 - 10` would end at
980. -/
theorem c2_frozen_cash_not_pre_margin :
    ((((PerformanceTracker.new 1000 ciMargin1).on_fill oOpenBuy1 tick10).bind
      (fun u => u.on_fill oOpenBuy1 tick10)).map (·.available_cash) = some 970) ∧
    ¬ ((((PerformanceTracker.new 1000 ciMargin1).on_fill oOpenBuy1 tick10).bind
      (fun u => u.on_fill oOpenBuy1 tick10)).map (·.available_cash) = some 980) := by
  refine ⟨?_, ?_⟩ <;>
    norm_num [PerformanceTracker.on_fill, PerformanceTracker.openLeg,
      PerformanceTracker.new, PerformanceTracker.getPos, PerformanceTracker.setPos,
      Position.new, add32, ciMargin1, oOpenBuy1, tick10]

/-- Counterexample to C1 as stated: open 1 lot long at 10 under zero fees and
zero margin parameters from 100 cash, roll the tick, then close that lot at
ask 14.  The realized P&L is `(14 - 10)·1·1 = 4`, but available cash stays at
100: the close credits only the released margin (here 0), never the realized
P&L. -/
theorem c1_counterexample :
    ((((PerformanceTracker.new 100 ciZero).on_fill oOpenBuy1 tick10).bind
      (fun u => (u.on_tick_end tick10).on_fill oCloseBuy1 tick14)).map
        (·.available_cash) = some 100) ∧
    ¬ ((((PerformanceTracker.new 100 ciZero).on_fill oOpenBuy1 tick10).bind
      (fun u => (u.on_tick_end tick10).on_fill oCloseBuy1 tick14)).map
        (·.available_cash) = some (100 + (14 - 10) * 1 * 1)) := by
  refine ⟨?_, ?_⟩ <;>
    norm_num [PerformanceTracker.on_fill, PerformanceTracker.openLeg,
      PerformanceTracker.closeLeg, PerformanceTracker.on_tick_end,
      PerformanceTracker.new, PerformanceTracker.getPos, PerformanceTracker.setPos,
      Position.new, Position.reduce, Position.unrealized_pnl, add32, sub32,
      ciZero, oOpenBuy1, oCloseBuy1, tick10, tick14]

/-- Counterexample to C3 as stated: open 1 lot long at 10 under margin rate 1
and multiplier 1 from 100 cash (cash 90, margin 10), then roll a tick whose
best ask is 20 but whose last trade is 12.  The recorded equity is
`90 + (20 - 10) + 10 = 110`, marking the long position against `ap1`; marking
against `tick.last` as claimed would give `90 + (12 - 10) + 10 = 102`. -/
theorem c3_counterexample :
    (((PerformanceTracker.new 100 ciMargin1).on_fill oOpenBuy1 tick10).map
      (fun u => (u.on_tick_end tickMix).market_value) = some 110) ∧
    ¬ (((PerformanceTracker.new 100 ciMargin1).on_fill oOpenBuy1 tick10).map
      (fun u => (u.on_tick_end tickMix).market_value) =
        some (90 + (tickMix.last - 10) * 1 * 1 + 10)) := by
  refine ⟨?_, ?_⟩ <;>
    norm_num [PerformanceTracker.on_fill, PerformanceTracker.openLeg,
      PerformanceTracker.on_tick_end, PerformanceTracker.new,
      PerformanceTracker.getPos, PerformanceTracker.setPos, Position.new,
      Position.unrealized_pnl, add32, ciMargin1, oOpenBuy1, tick10, tickMix]

/-- Counterexample to C4 as stated: open 1 lot long, then send a CLOSE for 2
lots.  No `min` is taken: the `u32` subtraction `1 - 2` wraps to
`2^32 - 1 = 4294967295`, the position stays in the ledger with that lot
count, and it is not reduced to 0 lots. -/
theorem c4_counterexample :
    (((((PerformanceTracker.new 100 ciMargin1).on_fill oOpenBuy1 tick10).bind
      (fun u => u.on_fill oCloseBuy2 tick10)).bind (·.posBuy)).map Position.lots =
        some 4294967295) ∧
    ¬ (((((PerformanceTracker.new 100 ciMargin1).on_fill oOpenBuy1 tick10).bind
      (fun u => u.on_fill oCloseBuy2 tick10)).bind (·.posBuy)).map Position.lots =
        some 0) := by
  refine ⟨?_, ?_⟩ <;>
    norm_num [PerformanceTracker.on_fill, PerformanceTracker.openLeg,
      PerformanceTracker.closeLeg, PerformanceTracker.new,
      PerformanceTracker.getPos, PerformanceTracker.setPos, Position.new,
      Position.reduce, add32, sub32, ciMargin1, oOpenBuy1, oCloseBuy2, tick10]

/-- Counterexample to C6 as stated: a capacity-2 standard-deviation state
whose window holds the finite samples `[1, 1]` but whose cached sum of
squares has drifted to 0 by cancellation.  Feeding the finite sample 0 yields
finite rolling sums 1 and −1, a variance numerator `−1 − 1·1/2 = −3/2 ≤ 0`,
and the operator returns NaN (`none`) — not the claimed 0, because the source
takes the square root with no clamp. -/
theorem c6_counterexample :
    ((stBad.sumer.update (some 0)).2 = some 1) ∧
    ((stBad.sq_sumer.update (fmul (some 0) (some 0))).2 = some (-1)) ∧
    ((-1 : ℚ) - 1 * 1 / (stBad.n : ℚ) ≤ 0) ∧
    ((stBad.update (some 0)).2 = none) ∧
    ((stBad.update (some 0)).2 ≠ some 0) := by
  have h : (stBad.update (some 0)).2 = none := by
    norm_num [StDev.update, Sum.update, rollCore, Container.update, Container.head,
      fmul, fsub, fdiv, fdivq, fsqrt, stBad]
  refine ⟨?_, ?_, ?_, h, ?_⟩
  · norm_num [Sum.update, rollCore, Container.update, Container.head, stBad]
  · norm_num [Sum.update, rollCore, Container.update, Container.head, fmul, stBad]
  · norm_num [stBad]
  · rw [h]
    decide

/-- C3 amended: after every `on_tick_end(tick)` the recorded equity — the
scalar `market_value` field, overwritten each tick; no equity-curve series
exists in the tracker — equals available cash plus the total unrealized P&L
plus the total reserved margin, where each long position is marked against
the tick's best ask `ap1` and each short position against its best bid
`bp1` (not against `tick.last`). -/
theorem c3_amended_equity (t : PerformanceTracker) (tick : TickData) :
    (t.on_tick_end tick).market_value =
      t.available_cash + t.totalUnreal tick + t.totalMargin := by
  obtain ⟨ic, ac, pb, ps, ci, fc, mv, tf, os⟩ := t
  cases pb <;> cases ps <;>
    simp [PerformanceTracker.on_tick_end, PerformanceTracker.totalMargin,
      PerformanceTracker.totalUnreal, Position.unrealized_pnl]

/-- C1 amended: a CLOSE fill in direction `d` against an existing position in
that direction subtracts the close fee and then credits available cash with
the released margin computed for the closed lots at the fill price,
`(margin_rate · price · multiplier + margin_fixed) · lots` — not with the
realized P&L, which is never added to cash (and the tracker state holds no
cumulative realized-P&L field at all). -/
theorem c1_amended_close_credits_released_margin (t : PerformanceTracker)
    (order : Order) (tick : TickData) (pos : Position)
    (hoff : order.offset = .CLOSE)
    (hdir : order.direction = .BUY ∨ order.direction = .SELL)
    (hpos : t.getPos order.direction = some pos) :
    ∃ u, t.on_fill order tick = some u ∧
      u.available_cash =
        t.available_cash -
          (t.contract_info.close_fee_rate *
              ((if order.direction = .BUY then tick.ap1 else tick.bp1) *
                t.contract_info.multiplier * (order.lots : ℚ)) +
            t.contract_info.close_fee_fixed * (order.lots : ℚ)) +
          ((if order.direction = .BUY then t.contract_info.long_margin_rate
              else t.contract_info.short_margin_rate) *
              ((if order.direction = .BUY then tick.ap1 else tick.bp1) *
                t.contract_info.multiplier * (order.lots : ℚ)) +
            (if order.direction = .BUY then t.contract_info.long_margin_fixed
              else t.contract_info.short_margin_fixed) * (order.lots : ℚ)) := by
  obtain ⟨ts, pr, lots, d, o⟩ := order
  rcases hdir with h | h <;> simp only at h <;> subst h <;> simp only at hoff <;>
    subst hoff <;>
    simp only [PerformanceTracker.getPos] at hpos <;>
    simp only [PerformanceTracker.on_fill, PerformanceTracker.closeLeg,
      PerformanceTracker.getPos, PerformanceTracker.setPos, Position.reduce,
      hpos, Option.map_some] <;>
    refine ⟨_, rfl, ?_⟩ <;>
    split <;> simp [Position.reduce]

/-- Witness for C1: closing the single long lot of `tLong1` (margin rate 1,
no fees) at ask 14 credits the released margin 14, leaving cash 104. -/
theorem c1_witness :
    ∃ u, tLong1.on_fill oCloseBuy1 tick14 = some u ∧ u.available_cash = 104 := by
  obtain ⟨u, h1, h2⟩ :=
    c1_amended_close_credits_released_margin tLong1 oCloseBuy1 tick14
      ⟨1, 10, 10⟩ rfl (Or.inl rfl) rfl
  refine ⟨u, h1, ?_⟩
  rw [h2]
  norm_num [tLong1, ciMargin1, oCloseBuy1, tick14]

/-- C4 amended: no `min` is taken on a CLOSE — the ledger is reduced by the
order's full lot count.  When `order.lots ≤ pos.lots` (below `2^32`) the
position's lots decrease by exactly `order.lots`, and the ledger entry is
removed exactly when that leaves 0; when `order.lots > pos.lots` the `u32`
subtraction underflows (wrapping modulo `2^32` in a release build, panicking
in a debug build), as `c4_counterexample` shows. -/
theorem c4_amended_close_subtracts_order_lots (t : PerformanceTracker)
    (order : Order) (tick : TickData) (pos : Position)
    (hoff : order.offset = .CLOSE)
    (hdir : order.direction = .BUY ∨ order.direction = .SELL)
    (hpos : t.getPos order.direction = some pos)
    (hle : order.lots ≤ pos.lots) (hlt : pos.lots < 2 ^ 32) :
    ∃ u, t.on_fill order tick = some u ∧
      (u.getPos order.direction).map Position.lots =
        (if pos.lots - order.lots = 0 then none
          else some (pos.lots - order.lots)) := by
  obtain ⟨ts, pr, lots, d, o⟩ := order
  simp only at hle
  have hs : sub32 pos.lots lots = pos.lots - lots := by
    simp only [sub32]
    omega
  rcases hdir with h | h <;> simp only at h <;> subst h <;> simp only at hoff <;>
    subst hoff <;>
    simp only [PerformanceTracker.getPos] at hpos <;>
    simp only [PerformanceTracker.on_fill, PerformanceTracker.closeLeg,
      PerformanceTracker.getPos, PerformanceTracker.setPos, Position.reduce,
      hpos, hs, Option.map_some] <;>
    refine ⟨_, rfl, ?_⟩ <;>
    split <;> simp_all [PerformanceTracker.getPos, PerformanceTracker.setPos]

/-- Witness for C4: closing 1 lot against the 1-lot long position of `tLong1`
removes the ledger entry. -/
theorem c4_witness :
    ∃ u, tLong1.on_fill oCloseBuy1 tick14 = some u ∧
      (u.getPos oCloseBuy1.direction).map Position.lots = none := by
  obtain ⟨u, h1, h2⟩ :=
    c4_amended_close_subtracts_order_lots tLong1 oCloseBuy1 tick14
      ⟨1, 10, 10⟩ rfl (Or.inl rfl) rfl (by decide) (by decide)
  exact ⟨u, h1, by simpa [oCloseBuy1] using h2⟩

/-- C6 amended: the source applies no clamp before the square root.  For any
standard-deviation state of capacity ≥ 2 whose rolling sums come out finite,
if the variance numerator `Σx² − (Σx)²/N` is `≤ 0` after an update then the
operator returns 0 exactly when the numerator is exactly 0, and NaN
(non-finite) whenever cancellation has driven the numerator strictly
negative. -/
theorem c6_amended_no_clamp (s : StDev) (v : F64) (sum sq : ℚ)
    (hn : 2 ≤ s.n)
    (hsum : (s.sumer.update v).2 = some sum)
    (hsq : (s.sq_sumer.update (fmul v v)).2 = some sq)
    (hnum : sq - sum * sum / (s.n : ℚ) ≤ 0) :
    (s.update v).2 =
      (if sq - sum * sum / (s.n : ℚ) = 0 then some 0 else none) := by
  have hn0 : ((s.n : ℚ)) ≠ 0 := by
    have : (2 : ℚ) ≤ (s.n : ℚ) := by exact_mod_cast hn
    linarith
  have hn1 : ((s.n : ℚ)) - 1 ≠ 0 := by
    have : (2 : ℚ) ≤ (s.n : ℚ) := by exact_mod_cast hn
    linarith
  have hn1pos : 0 < ((s.n : ℚ)) - 1 := by
    have : (2 : ℚ) ≤ (s.n : ℚ) := by exact_mod_cast hn
    linarith
  simp only [StDev.update]
  rw [hsum, hsq]
  simp only [fmul, fsub, fdiv, fdivq, if_neg hn0, if_neg hn1]
  rcases lt_or_eq_of_le hnum with hlt | heq
  · have hneg : (sq - sum * sum / (s.n : ℚ)) / ((s.n : ℚ) - 1) < 0 :=
      div_neg_of_neg_of_pos hlt hn1pos
    simp [fsqrt, hneg, ne_of_lt hlt]
  · rw [heq]
    simp [fsqrt]

/-- Witness for C6: the consistent capacity-2 state `stOK` (window `[1, 1]`,
sums 2 and 2) fed the sample 1 has numerator `2 − 2·2/2 = 0` and returns 0. -/
theorem c6_witness :
    (stOK.update (some 1)).2 =
      (if (2 : ℚ) - 2 * 2 / (stOK.n : ℚ) = 0 then some 0 else none) := by
  refine c6_amended_no_clamp stOK (some 1) 2 2 (by decide) ?_ ?_ ?_
  · simp [Sum.update, rollCore, Container.update, Container.head, stOK]
  · simp [Sum.update, rollCore, Container.update, Container.head, fmul, stOK]
  · norm_num [stOK]

/-- Reading a block of `j` copies of `a` followed by a nonempty block of `b`
at index `j` yields `b`. -/
theorem getD_replicate_append {α : Type} (a b d : α) :
    ∀ (j k : Nat), 0 < k →
      (List.replicate j a ++ List.replicate k b).getD j d = b := by
  intro j
  induction j with
  | zero =>
    intro k hk
    cases k with
    | zero => omega
    | succ k => simp [List.replicate_succ]
  | succ j ih =>
    intro k hk
    simpa [List.replicate_succ] using ih k hk

/-- Overwriting index `j` of a block of `j` copies of `a` followed by a
nonempty block of `b` with `a` extends the first block by one. -/
theorem set_replicate_append {α : Type} (a b : α) :
    ∀ (j k : Nat), 0 < k →
      (List.replicate j a ++ List.replicate k b).set j a =
        List.replicate (j + 1) a ++ List.replicate (k - 1) b := by
  intro j
  induction j with
  | zero =>
    intro k hk
    cases k with
    | zero => omega
    | succ k => simp [List.replicate_succ]
  | succ j ih =>
    intro k hk
    simpa [List.replicate_succ] using ih k hk

/-- Filling a fresh rolling window of capacity `N` with `j ≤ N` copies of the
finite value `x`: the buffer is `j` copies of `x` followed by `N - j` NaN
slots, the head has advanced to `j % N`, the tail sits at `j - 1`, the
non-finite count is `N - j`, and the running sum is `j·x`. -/
theorem rollIterN_fill (N : Nat) (x : ℚ) :
    ∀ j, j ≤ N →
      rollIterN (Container.new N, N, (0 : ℚ)) (some x) j =
        (⟨List.replicate j (some x) ++ List.replicate (N - j) none, j % N, j - 1⟩,
          N - j, (j : ℚ) * x) := by
  intro j
  induction j with
  | zero =>
    intro _
    simp [rollIterN, Container.new]
  | succ j ih =>
    intro h
    have hjN : j < N := by omega
    have hmod : j % N = j := Nat.mod_eq_of_lt hjN
    have hpos : 0 < N - j := by omega
    rw [rollIterN, ih (by omega)]
    simp only [rollCore, Container.head, Container.update, hmod,
      getD_replicate_append _ _ _ j (N - j) hpos,
      set_replicate_append _ _ j (N - j) hpos]
    have hsub : N - j - 1 = N - (j + 1) := by omega
    have hcast : (j : ℚ) * x + x = ((j + 1 : Nat) : ℚ) * x := by
      push_cast
      ring
    have hlen2 : j + 1 + (N - (j + 1)) = N := by omega
    simp only [hsub, hcast]
    simp [List.length_append, hlen2]

/-- The state of `Sum` after `k` identical updates is the `k`-fold iterate of
the shared roll body. -/
theorem sum_updateN_roll (N : Nat) (v : F64) :
    ∀ k, (Sum.new N).updateN v k =
      ⟨(rollIterN (Container.new N, N, 0) v k).1,
        (rollIterN (Container.new N, N, 0) v k).2.1,
        (rollIterN (Container.new N, N, 0) v k).2.2⟩ := by
  intro k
  induction k with
  | zero => simp [Sum.updateN, Sum.new, rollIterN]
  | succ k ih => simp [Sum.updateN, Sum.update, rollIterN, ih]

/-- The state of `Mean` after `k` identical updates is the `k`-fold iterate
of the shared roll body. -/
theorem mean_updateN_roll (N : Nat) (v : F64) :
    ∀ k, (Mean.new N).updateN v k =
      ⟨(rollIterN (Container.new N, N, 0) v k).1,
        (rollIterN (Container.new N, N, 0) v k).2.1,
        (rollIterN (Container.new N, N, 0) v k).2.2⟩ := by
  intro k
  induction k with
  | zero => simp [Mean.updateN, Mean.new, rollIterN]
  | succ k ih => simp [Mean.updateN, Mean.update, rollIterN, ih]

/-- The state of `StDev` after `k` identical updates is a pair of `Sum`
states, one fed the value and one fed its square. -/
theorem stdev_updateN_comp (N : Nat) (v : F64) :
    ∀ k, (StDev.new N).updateN v k =
      ⟨(Sum.new N).updateN v k, (Sum.new N).updateN (fmul v v) k, N⟩ := by
  intro k
  induction k with
  | zero => simp [StDev.updateN, StDev.new, Sum.updateN]
  | succ k ih => simp [StDev.updateN, StDev.update, Sum.updateN, ih]

/-- The `N`-th identical finite update on a fresh rolling sum returns
`N·x`. -/
theorem sum_nth_const (N : Nat) (hN : 1 ≤ N) (x : ℚ) :
    (((Sum.new N).updateN (some x) (N - 1)).update (some x)).2 =
      some ((N : ℚ) * x) := by
  rw [sum_updateN_roll, rollIterN_fill N x (N - 1) (by omega)]
  have h1 : N - (N - 1) = 1 := by omega
  have hmod : (N - 1) % N = N - 1 := Nat.mod_eq_of_lt (by omega)
  simp only [Sum.update, rollCore, Container.head, Container.update, h1, hmod,
    getD_replicate_append _ _ _ (N - 1) 1 (by omega),
    set_replicate_append _ _ (N - 1) 1 (by omega)]
  have hcast : ((N - 1 : Nat) : ℚ) * x + x = (N : ℚ) * x := by
    rw [Nat.cast_sub hN]
    push_cast
    ring
  simp [hcast]

/-- The `N`-th identical finite update on a fresh rolling mean returns `x`. -/
theorem mean_nth_const (N : Nat) (hN : 1 ≤ N) (x : ℚ) :
    (((Mean.new N).updateN (some x) (N - 1)).update (some x)).2 = some x := by
  rw [mean_updateN_roll, rollIterN_fill N x (N - 1) (by omega)]
  have h1 : N - (N - 1) = 1 := by omega
  have hmod : (N - 1) % N = N - 1 := Nat.mod_eq_of_lt (by omega)
  simp only [Mean.update, rollCore, Container.head, Container.update,
    Container.len, h1, hmod,
    getD_replicate_append _ _ _ (N - 1) 1 (by omega),
    set_replicate_append _ _ (N - 1) 1 (by omega)]
  have hcast : ((N - 1 : Nat) : ℚ) * x + x = (N : ℚ) * x := by
    rw [Nat.cast_sub hN]
    push_cast
    ring
  have hlen : N - 1 + 1 + (1 - 1) = N := by omega
  have hN0 : ((N : Nat) : ℚ) ≠ 0 := by
    exact_mod_cast Nat.one_le_iff_ne_zero.mp hN
  simp [List.length_append, hlen, hcast, fdivq, hN0, mul_div_assoc,
    mul_div_cancel_left₀ x hN0]

/-- C7: for every capacity `N ≥ 2` and finite value `x`, the `N`-th of `N`
consecutive updates with `x` on freshly constructed rolling operators returns
sum `N·x`, mean `x` and standard deviation `0`. -/
theorem c7_idempotent_fill (N : Nat) (x : ℚ) (hN : 2 ≤ N) :
    (((Sum.new N).updateN (some x) (N - 1)).update (some x)).2 =
        some ((N : ℚ) * x) ∧
    (((Mean.new N).updateN (some x) (N - 1)).update (some x)).2 = some x ∧
    (((StDev.new N).updateN (some x) (N - 1)).update (some x)).2 = some 0 := by
  have h1 : (1 : Nat) ≤ N := by omega
  refine ⟨sum_nth_const N h1 x, mean_nth_const N h1 x, ?_⟩
  rw [stdev_updateN_comp]
  have hx : fmul (some x) (some x) = some (x * x) := by simp [fmul]
  have hsum := sum_nth_const N h1 x
  have hsq := sum_nth_const N h1 (x * x)
  simp only [StDev.update, hx, hsum, hsq]
  have hN0 : ((N : Nat) : ℚ) ≠ 0 := by
    exact_mod_cast Nat.one_le_iff_ne_zero.mp h1
  have hN1 : ((N : Nat) : ℚ) - 1 ≠ 0 := by
    have : (2 : ℚ) ≤ (N : ℚ) := by exact_mod_cast hN
    linarith
  have hnum : (N : ℚ) * (x * x) - (N : ℚ) * x * ((N : ℚ) * x) / (N : ℚ) = 0 := by
    field_simp
    ring
  simp [fmul, fsub, fdiv, fdivq, hN0, hN1, hnum, fsqrt]

/-- Witness for C7 at capacity 2 and value 5. -/
theorem c7_witness :
    (((Sum.new 2).updateN (some (5 : ℚ)) (2 - 1)).update (some 5)).2 =
        some (((2 : Nat) : ℚ) * 5) ∧
    (((Mean.new 2).updateN (some (5 : ℚ)) (2 - 1)).update (some 5)).2 =
        some 5 ∧
    (((StDev.new 2).updateN (some (5 : ℚ)) (2 - 1)).update (some 5)).2 =
        some 0 :=
  c7_idempotent_fill 2 5 (by decide)

/-- A buffer of NaN slots has as many non-finite samples as slots. -/
theorem countNone_replicate (n : Nat) :
    countNone (List.replicate n (none : F64)) = n := by
  induction n with
  | zero => simp [countNone]
  | succ n ih =>
    simp only [countNone, List.replicate_succ, List.countP_cons,
      Option.isNone_none, if_true] at ih ⊢
    omega

/-- A buffer of NaN slots sums to 0 over its finite samples. -/
theorem finSum_replicate (n : Nat) :
    finSum (List.replicate n (none : F64)) = 0 := by
  induction n with
  | zero => simp [finSum]
  | succ n ih =>
    rw [List.replicate_succ]
    simp only [finSum, List.map_cons, List.sum_cons] at ih ⊢
    rw [ih]
    simp [contrib]

/-- Overwriting one in-range slot changes the non-finite count by the slot
difference (stated additively to stay in `Nat`). -/
theorem countNone_set :
    ∀ (l : List F64) (i : Nat) (v : F64), i < l.length →
      countNone (l.set i v) + (if (l.getD i none).isNone then 1 else 0) =
        countNone l + (if v.isNone then 1 else 0) := by
  intro l
  induction l with
  | nil => intro i v h; simp at h
  | cons a l ih =>
    intro i v h
    cases i with
    | zero =>
      rcases a with _ | qa <;> rcases v with _ | qv <;>
        simp [countNone, List.countP_cons]
    | succ i =>
      have hlt : i < l.length := by simpa using h
      have hrec := ih i v hlt
      simp only [List.set_cons_succ, List.getD_cons_succ, countNone,
        List.countP_cons] at hrec ⊢
      omega

/-- A slot read as non-finite contributes at least one to the non-finite
count. -/
theorem one_le_countNone :
    ∀ (l : List F64) (i : Nat), i < l.length → l.getD i none = none →
      1 ≤ countNone l := by
  intro l
  induction l with
  | nil => intro i h; simp at h
  | cons a l ih =>
    intro i h hnone
    cases i with
    | zero =>
      simp only [List.getD_cons_zero] at hnone
      simp [hnone, countNone, List.countP_cons]
    | succ i =>
      have hlt : i < l.length := by simpa using h
      have hrec := ih i hlt (by simpa using hnone)
      simp only [countNone, List.countP_cons] at hrec ⊢
      omega

/-- Overwriting one in-range slot changes the finite sum by the contribution
difference. -/
theorem finSum_set :
    ∀ (l : List F64) (i : Nat) (v : F64), i < l.length →
      finSum (l.set i v) = finSum l - contrib (l.getD i none) + contrib v := by
  intro l
  induction l with
  | nil => intro i v h; simp at h
  | cons a l ih =>
    intro i v h
    cases i with
    | zero => simp [finSum]; ring
    | succ i =>
      have hlt : i < l.length := by simpa using h
      have hrec := ih i v hlt
      simp [finSum] at hrec ⊢
      rw [hrec]
      ring

/-- The shared roll body preserves the rolling-window invariant. -/
theorem rollCore_inv (N : Nat) (hN : 0 < N) (c : Container) (nan : Nat)
    (sum : ℚ) (v : F64) (h : rollInv N (c, nan, sum)) :
    rollInv N (rollCore c nan sum v) := by
  simp only [rollInv] at h
  obtain ⟨hlen, hhead, hnan, hsum⟩ := h
  have hhead' : c.head_idx < c.buf.length := by omega
  have hc := countNone_set c.buf c.head_idx v hhead'
  have hf := finSum_set c.buf c.head_idx v hhead'
  simp only [rollInv, rollCore, Container.head, Container.update]
  refine ⟨by simpa using hlen, ?_, ?_, ?_⟩
  · simp only [List.length_set, hlen]
    exact Nat.mod_lt _ hN
  · rcases hold : c.buf.getD c.head_idx none with _ | q <;> rcases v with _ | qv <;>
      first
      | (have hone := one_le_countNone c.buf c.head_idx hhead' hold
         rw [hold] at hc
         simp [hnan] at hc ⊢ <;> omega)
      | (rw [hold] at hc
         simp [hnan] at hc ⊢ <;> omega)
  · rcases hold : c.buf.getD c.head_idx none with _ | q <;> rcases v with _ | qv <;>
      (rw [hold] at hf
       simp only [contrib, Option.getD_some, Option.getD_none] at hf ⊢
       rw [hf, hsum]) <;>
      ring

/-- A freshly constructed window of positive capacity satisfies the
invariant. -/
theorem rollInv_new (N : Nat) (hN : 0 < N) :
    rollInv N (Container.new N, N, (0 : ℚ)) := by
  refine ⟨by simp [Container.new], by simpa [Container.new] using hN, ?_, ?_⟩
  · simp [Container.new, countNone_replicate]
  · simp [Container.new, finSum_replicate]

/-- One `Mean::update` preserves the rolling-window invariant. -/
theorem mean_update_inv (N : Nat) (hN : 0 < N) (m : Mean) (v : F64)
    (h : rollInv N (m.container, m.nan_count, m.sum)) :
    rollInv N ((m.update v).1.container, (m.update v).1.nan_count,
      (m.update v).1.sum) := by
  have hc := rollCore_inv N hN m.container m.nan_count m.sum v h
  simp only [rollInv] at hc ⊢
  simpa [Mean.update] using hc

/-- Feeding any input list through `Mean::update` preserves the
rolling-window invariant. -/
theorem mean_feed_inv (N : Nat) (hN : 0 < N) :
    ∀ (xs : List F64) (m : Mean),
      rollInv N (m.container, m.nan_count, m.sum) →
      rollInv N ((m.feed xs).container, (m.feed xs).nan_count,
        (m.feed xs).sum) := by
  intro xs
  induction xs with
  | nil => intro m h; simpa [Mean.feed] using h
  | cons a xs ih =>
    intro m h
    have h1 := mean_update_inv N hN m a h
    have h2 := ih (m.update a).1 h1
    simpa [Mean.feed] using h2

/-- C8: for every positive capacity `N` and any prior update sequence, the
next `Mean::update` returns the sum of the finite samples left in the window
divided by `N - K`, where `K` is the number of non-finite samples in the
window; in particular when `K = N` the result is non-finite. -/
theorem c8_mean_divides_by_finite_count (N : Nat) (hN : 0 < N)
    (xs : List F64) (x : F64) :
    ((((Mean.new N).feed xs).update x).2 =
      fdivq (finSum ((((Mean.new N).feed xs).update x).1.container.buf))
        ((N - countNone ((((Mean.new N).feed xs).update x).1.container.buf) :
          Nat))) ∧
    (countNone ((((Mean.new N).feed xs).update x).1.container.buf) = N →
      (((Mean.new N).feed xs).update x).2 = none) := by
  have hinv0 : rollInv N ((Mean.new N).container, (Mean.new N).nan_count,
      (Mean.new N).sum) := by
    simpa [Mean.new] using rollInv_new N hN
  have hinv := mean_feed_inv N hN xs (Mean.new N) hinv0
  set m := (Mean.new N).feed xs with hm
  set r := rollCore m.container m.nan_count m.sum x with hr
  have hinv2 : rollInv N r := rollCore_inv N hN m.container m.nan_count m.sum x hinv
  simp only [rollInv] at hinv2
  obtain ⟨hlen, hhead, hnan, hsum⟩ := hinv2
  have hupd1 : (m.update x).1.container.buf = r.1.buf := by
    simp [Mean.update, ← hr]
  have hupd2 : (m.update x).2 =
      if r.2.1 > 0 then fdivq r.2.2 ((r.1.len - r.2.1 : Nat))
      else fdivq r.2.2 (r.1.len) := by
    simp [Mean.update, ← hr]
  rw [hupd1, hupd2]
  have hlenc : r.1.len = N := by simp [Container.len, hlen]
  constructor
  · rw [hlenc, hnan, hsum]
    split
    · rfl
    · next hng =>
      have h0 : countNone r.1.buf = 0 := by omega
      rw [h0]
      simp
  · intro hKN
    rw [hnan, hKN, hlenc]
    simp [fdivq, hN]

/-- Witness for C8 at capacity 2, prior input list `[3]` and next sample 5. -/
theorem c8_witness :
    ((((Mean.new 2).feed [some 3]).update (some 5)).2 =
      fdivq (finSum ((((Mean.new 2).feed [some 3]).update (some 5)).1.container.buf))
        ((2 - countNone ((((Mean.new 2).feed [some 3]).update (some 5)).1.container.buf) :
          Nat))) ∧
    (countNone ((((Mean.new 2).feed [some 3]).update (some 5)).1.container.buf) = 2 →
      (((Mean.new 2).feed [some 3]).update (some 5)).2 = none) :=
  c8_mean_divides_by_finite_count 2 (by decide) [some 3] (some 5)

end Fustg
